import Mathlib

/-!
Verification development for the AI-study-tutor core (src/app.py).

The shallow embedding below translates the pure core of `app.py` into Lean:

* `JVal` models the Python values produced by `json.loads` (JSON values);
  floating-point numbers and `\uXXXX` string escapes are outside the modelled
  fragment (no behaviour claimed here depends on them).
* `_extract_first_json_object`, `parse_quiz_json`, `normalize_quiz`,
  `evaluate_answers`, the prompt builders and `generate_with_groq` are direct
  translations of the functions of the same names in `src/app.py`.
* Code that can raise a Python exception is modelled with `Except Unit`
  (`.error ()` standing for an uncaught exception); code whose exceptions are
  all caught internally is modelled as a total function.
* Python `str` is modelled as `String`, Python `int` as `Int` (arbitrary
  precision in both), Python lists as `List`.
-/

/-- JSON-decoded Python value (result of `json.loads`).  The modelled fragment
has `None`, booleans, arbitrary-precision integers, strings, lists and
string-keyed dicts; floats are not modelled. -/
inductive JVal where
  | null : JVal
  | bool (b : Bool) : JVal
  | int (n : Int) : JVal
  | str (s : String) : JVal
  | arr (xs : List JVal) : JVal
  | obj (kvs : List (String × JVal)) : JVal

/-- Normalized quiz question, the element shape produced by `normalize_quiz`:
a dict with exactly the keys `question`, `options`, `answer_index`. -/
structure NormQuestion where
  question : String
  options : List String
  answer_index : Int
deriving DecidableEq

/-- Whitespace characters stripped by Python `str.strip()` (ASCII fragment:
space, tab, linefeed, carriage return, vertical tab, form feed). -/
def isPySpace (c : Char) : Bool :=
  c = ' ' ∨ c = '\t' ∨ c = '\n' ∨ c = '\r' ∨ c = '\x0b' ∨ c = '\x0c'

/-- Python `str.strip()` on a character list: drop whitespace from both ends. -/
def pyStripChars (cs : List Char) : List Char :=
  ((cs.dropWhile isPySpace).reverse.dropWhile isPySpace).reverse

/-- Python `str.strip()`. -/
def pyStripStr (s : String) : String :=
  String.mk (pyStripChars s.data)

mutual
/-- Python `repr` of a JSON-decoded value (used by `str` on lists/dicts).
Approximation: strings are single-quoted without escaping; the claims never
evaluate it on strings containing quotes or backslashes. -/
def pyRepr : JVal → String
  | JVal.null => "None"
  | JVal.bool b => if b then "True" else "False"
  | JVal.int n => toString n
  | JVal.str s => "'" ++ s ++ "'"
  | JVal.arr xs => "[" ++ pyReprList xs ++ "]"
  | JVal.obj kvs => "\x7b" ++ pyReprObj kvs ++ "\x7d"

/-- Comma-separated `repr`s of list elements. -/
def pyReprList : List JVal → String
  | [] => ""
  | [x] => pyRepr x
  | x :: y :: rest => pyRepr x ++ ", " ++ pyReprList (y :: rest)

/-- Comma-separated `repr`s of dict entries. -/
def pyReprObj : List (String × JVal) → String
  | [] => ""
  | [kv] => "'" ++ kv.1 ++ "': " ++ pyRepr kv.2
  | kv :: kv2 :: rest => "'" ++ kv.1 ++ "': " ++ pyRepr kv.2 ++ ", " ++ pyReprObj (kv2 :: rest)
end

/-- Python `str(o)` on a JSON-decoded value: identity on strings, `True` and
`False` for booleans, decimal for integers, `None` for null, `repr` for
containers. -/
def pyStr : JVal → String
  | JVal.str s => s
  | JVal.bool b => if b then "True" else "False"
  | JVal.int n => toString n
  | JVal.null => "None"
  | v => pyRepr v

/-- Python `isinstance(v, int)` together with the integer value: `bool` is a
subclass of `int` in Python, so `True`/`False` count as `1`/`0`. -/
def jIntVal : JVal → Option Int
  | JVal.int n => some n
  | JVal.bool b => some (if b then 1 else 0)
  | _ => none

/-- Lookup in a Python dict (keys are unique). -/
def dictGet (kvs : List (String × JVal)) (k : String) : Option JVal :=
  (kvs.find? (fun kv => kv.1 = k)).map (fun kv => kv.2)

/-- Whether a value is a Python dict. -/
def JVal.isObj : JVal → Bool
  | JVal.obj _ => true
  | _ => false

/-- Python `v.get(k, d)`: dict lookup with default; raises `AttributeError`
(modelled `.error ()`) when `v` is not a dict. -/
def pyGetD (v : JVal) (k : String) (d : JVal) : Except Unit JVal :=
  match v with
  | JVal.obj kvs => Except.ok ((dictGet kvs k).getD d)
  | _ => Except.error ()

/-- Python iteration `for q in v`: lists yield elements, strings yield
one-character strings, dicts yield their keys; other values raise
`TypeError` (modelled `.error ()`). -/
def pyIter (v : JVal) : Except Unit (List JVal) :=
  match v with
  | JVal.arr xs => Except.ok xs
  | JVal.str s => Except.ok (s.data.map (fun c => JVal.str (String.mk [c])))
  | JVal.obj kvs => Except.ok (kvs.map (fun kv => JVal.str kv.1))
  | _ => Except.error ()

/-- Python list indexing `l[i]` with negative-index wrap-around; raises
`IndexError` (modelled `.error ()`) out of range. -/
def pyIndex (l : List String) (i : Int) : Except Unit String :=
  let j : Int := if i < 0 then i + l.length else i
  if j < 0 then Except.error ()
  else
    match l.get? j.toNat with
    | some x => Except.ok x
    | none => Except.error ()

/-- Bool-valued prefix test on character lists. -/
def charsPrefixOf (p l : List Char) : Bool :=
  match p with
  | [] => true
  | a :: as =>
    match l with
    | b :: bs => a = b && charsPrefixOf as bs
    | [] => false

/-- Bool-valued substring test on character lists (Python `p in l` on `str`). -/
def charsInfixOf (p : List Char) : List Char → Bool
  | [] => charsPrefixOf p []
  | c :: rest => charsPrefixOf p (c :: rest) || charsInfixOf p rest

/-- Python membership test used by `parse_quiz_json`, modelling the expression
`"questions" in parsed`: key membership for dicts, element equality for lists,
substring for strings; `TypeError` (modelled `none`) otherwise. -/
def pyContainsQuestions : JVal → Option Bool
  | JVal.obj kvs => some (kvs.any (fun kv => kv.1 = "questions"))
  | JVal.arr xs =>
      some (xs.any (fun x =>
        match x with
        | JVal.str s => decide (s = "questions")
        | _ => false))
  | JVal.str s => some (charsInfixOf "questions".data s.data)
  | _ => none

/-- Whether a JSON value is an object carrying the given key (the spec's
notion of "contains a `questions` key"). -/
def jvalHasKey (v : JVal) (k : String) : Bool :=
  match v with
  | JVal.obj kvs => kvs.any (fun kv => kv.1 = k)
  | _ => false

/-!  The balanced-brace extractor (`_extract_first_json_object`).  -/

/-- Suffix of the character list starting at the first `\x7b` (models
`text.find("\x7b")` followed by scanning from that index). -/
def findBrace : List Char → Option (List Char)
  | [] => none
  | c :: rest => if c = '\x7b' then some (c :: rest) else findBrace rest

/-- The scanning loop of `_extract_first_json_object`, carrying the loop state
`depth`, `in_str`, `escape` of the source verbatim, plus the accumulated
substring scanned so far (`text[start:i]`). -/
def extractLoop : List Char → Int → Bool → Bool → List Char → Option (List Char)
  | [], _, _, _, _ => none
  | c :: rest, depth, instr, esc, acc =>
    if instr then
      if esc then extractLoop rest depth true false (acc ++ [c])
      else if c = '\\' then extractLoop rest depth true true (acc ++ [c])
      else if c = '"' then extractLoop rest depth false false (acc ++ [c])
      else extractLoop rest depth true false (acc ++ [c])
    else
      if c = '"' then extractLoop rest depth true false (acc ++ [c])
      else if c = '\x7b' then extractLoop rest (depth + 1) false false (acc ++ [c])
      else if c = '\x7d' then
        if depth - 1 = 0 then some (acc ++ [c])
        else extractLoop rest (depth - 1) false false (acc ++ [c])
      else extractLoop rest depth false false (acc ++ [c])

/-- Translation of `_extract_first_json_object` from `src/app.py`: locate the
first `\x7b` and scan forward balancing braces outside string literals. -/
def _extract_first_json_object (text : String) : Option String :=
  match findBrace text.data with
  | none => none
  | some suf => (extractLoop suf 0 false false []).map (fun cs => String.mk cs)

/-- State of the spec-side scan: brace depth, string-literal flag, escape
flag (the three loop variables of the extractor). -/
structure ScanState where
  depth : Int
  instr : Bool
  esc : Bool
deriving DecidableEq

/-- One step of the string-aware balanced-brace scan described by the spec. -/
def scanStep (st : ScanState) (c : Char) : ScanState :=
  if st.instr then
    if st.esc then ⟨st.depth, true, false⟩
    else if c = '\\' then ⟨st.depth, true, true⟩
    else if c = '"' then ⟨st.depth, false, false⟩
    else ⟨st.depth, true, false⟩
  else
    if c = '"' then ⟨st.depth, true, false⟩
    else if c = '\x7b' then ⟨st.depth + 1, false, false⟩
    else if c = '\x7d' then ⟨st.depth - 1, false, false⟩
    else ⟨st.depth, false, false⟩

/-- Replay of the scan over a character list from a given state. -/
def scanRunFrom (st : ScanState) (cs : List Char) : ScanState :=
  cs.foldl scanStep st

example : _extract_first_json_object "no braces here" = none := by rfl
example : _extract_first_json_object "x \x7b\"a\": \"b\x7bc\x7dd\"\x7d y" =
    some "\x7b\"a\": \"b\x7bc\x7dd\"\x7d" := by rfl
example : _extract_first_json_object "open \x7b\"a\": 1" = none := by rfl

/-!  A model of Python `json.loads` (external library call).  The modelled
fragment covers null/true/false, integers, strings with the single-character
escapes, arrays and objects, with JSON whitespace; floats, `\uXXXX` escapes
and the rejection of leading zeros are outside the fragment.  `none` models a
raised `JSONDecodeError`; like the library, the whole text must be exactly one
JSON value.  -/

/-- Skip JSON whitespace (space, tab, linefeed, carriage return). -/
def jskipWs : List Char → List Char
  | [] => []
  | c :: rest =>
    if c = ' ' ∨ c = '\t' ∨ c = '\n' ∨ c = '\r' then jskipWs rest else c :: rest

/-- Single-character JSON string escapes (`\uXXXX` not modelled): the three
self-representing characters map to themselves, the five letter escapes to
their control characters. -/
def escChar (e : Char) : Option Char :=
  if e = '"' ∨ e = '\\' ∨ e = '/' then some e
  else if e = 'n' then some '\n'
  else if e = 't' then some '\t'
  else if e = 'r' then some '\r'
  else if e = 'b' then some '\x08'
  else if e = 'f' then some '\x0c'
  else none

/-- Parse a JSON string body after the opening quote; returns the decoded
characters and the rest of the input. -/
def jparseStrChars : List Char → Option (List Char × List Char)
  | [] => none
  | '"' :: r => some ([], r)
  | '\\' :: e :: r =>
    match escChar e with
    | some c => (jparseStrChars r).map (fun p => (c :: p.1, p.2))
    | none => none
  | '\\' :: [] => none
  | c :: r => (jparseStrChars r).map (fun p => (c :: p.1, p.2))

/-- Longest digit prefix and the rest. -/
def takeDigits : List Char → (List Char × List Char)
  | [] => ([], [])
  | c :: rest =>
    if c.isDigit then
      let p := takeDigits rest
      (c :: p.1, p.2)
    else ([], c :: rest)

/-- Decimal value of a digit list. -/
def digitsToNat (ds : List Char) : Nat :=
  ds.foldl (fun a c => 10 * a + (c.toNat - '0'.toNat)) 0

/-- Parse a JSON integer (optional minus sign, digits). -/
def jparseInt (cs : List Char) : Option (JVal × List Char) :=
  match cs with
  | '-' :: r =>
    match takeDigits r with
    | ([], _) => none
    | (ds, r2) => some (JVal.int (-(digitsToNat ds : Int)), r2)
  | _ =>
    match takeDigits cs with
    | ([], _) => none
    | (ds, r2) => some (JVal.int (digitsToNat ds), r2)

/-- Insert a member into a parsed object: duplicate keys keep the last value,
as `json.loads` does. -/
def insertKV (kvs : List (String × JVal)) (k : String) (v : JVal) : List (String × JVal) :=
  if kvs.any (fun kv => kv.1 = k) then
    kvs.map (fun kv => if kv.1 = k then (k, v) else kv)
  else kvs ++ [(k, v)]

mutual
/-- Parse one JSON value (fuel-indexed recursion; the fuel passed by
`json_loads` always suffices). -/
def jparseVal : Nat → List Char → Option (JVal × List Char)
  | 0, _ => none
  | fuel + 1, cs =>
    match jskipWs cs with
    | [] => none
    | 'n' :: 'u' :: 'l' :: 'l' :: r => some (JVal.null, r)
    | 't' :: 'r' :: 'u' :: 'e' :: r => some (JVal.bool true, r)
    | 'f' :: 'a' :: 'l' :: 's' :: 'e' :: r => some (JVal.bool false, r)
    | '"' :: r => (jparseStrChars r).map (fun p => (JVal.str (String.mk p.1), p.2))
    | '[' :: r => jparseArr fuel r []
    | '\x7b' :: r => jparseObj fuel r []
    | c :: r =>
      if c = '-' ∨ c.isDigit then jparseInt (c :: r) else none

/-- Parse array elements after `[` (or after a comma), accumulating. -/
def jparseArr : Nat → List Char → List JVal → Option (JVal × List Char)
  | 0, _, _ => none
  | fuel + 1, cs, acc =>
    match jskipWs cs with
    | ']' :: r => if acc.isEmpty then some (JVal.arr acc, r) else none
    | cs2 =>
      match jparseVal fuel cs2 with
      | some (v, r) =>
        match jskipWs r with
        | ',' :: r2 => jparseArr fuel r2 (acc ++ [v])
        | ']' :: r2 => some (JVal.arr (acc ++ [v]), r2)
        | _ => none
      | none => none

/-- Parse object members after `\x7b` (or after a comma), accumulating. -/
def jparseObj : Nat → List Char → List (String × JVal) → Option (JVal × List Char)
  | 0, _, _ => none
  | fuel + 1, cs, acc =>
    match jskipWs cs with
    | '\x7d' :: r => if acc.isEmpty then some (JVal.obj acc, r) else none
    | '"' :: r =>
      match jparseStrChars r with
      | some (kcs, r2) =>
        match jskipWs r2 with
        | ':' :: r3 =>
          match jparseVal fuel r3 with
          | some (v, r4) =>
            match jskipWs r4 with
            | ',' :: r5 => jparseObj fuel r5 (insertKV acc (String.mk kcs) v)
            | '\x7d' :: r5 => some (JVal.obj (insertKV acc (String.mk kcs) v), r5)
            | _ => none
          | none => none
        | _ => none
      | none => none
    | _ => none
end

/-- Model of Python `json.loads`: parse exactly one JSON value spanning the
whole text (up to surrounding whitespace); `none` models a raised
`JSONDecodeError`. -/
def json_loads (s : String) : Option JVal :=
  match jparseVal (s.data.length + 1) s.data with
  | some (v, rest) => if jskipWs rest = [] then some v else none
  | none => none

/-- The empty quiz structure returned when both parse attempts fail. -/
def emptyQuiz : JVal := JVal.obj [("questions", JVal.arr [])]

/-- The fallback section of `parse_quiz_json` (`# Fallback: balanced
extraction`): run the extractor; when it yields a truthy (non-empty) block,
parse it and accept when `"questions" in parsed`; otherwise return
`\x7b"questions": []\x7d`. -/
def parseFallback (text : String) : JVal :=
  match _extract_first_json_object text with
  | some block =>
    if block = "" then emptyQuiz
    else
      match json_loads block with
      | some parsed =>
        match pyContainsQuestions parsed with
        | some true => parsed
        | _ => emptyQuiz
      | none => emptyQuiz
  | none => emptyQuiz

/-- Translation of `parse_quiz_json` from `src/app.py`: try `json.loads` on
the whole text and accept when `"questions" in parsed`; otherwise run the
fallback extraction.  All exceptions of the two attempts are caught
(`try ... except ... pass`), so the function is total. -/
def parse_quiz_json (text : String) : JVal :=
  let attempt1 : Option JVal :=
    match json_loads text with
    | some parsed =>
      match pyContainsQuestions parsed with
      | some true => some parsed
      | _ => none
    | none => none
  match attempt1 with
  | some v => v
  | none => parseFallback text

example : json_loads "\x7b\"a\": [1, -2, null], \"b\": \"x\"\x7d" =
    some (JVal.obj [("a", JVal.arr [JVal.int 1, JVal.int (-2), JVal.null]), ("b", JVal.str "x")]) := by rfl
example : json_loads "[\"questions\"]" = some (JVal.arr [JVal.str "questions"]) := by rfl
example : json_loads "true x" = none := by rfl
example : parse_quiz_json "no json at all" = emptyQuiz := by rfl

/-!  The normalizer (`normalize_quiz`).  -/

/-- One iteration of the `normalize_quiz` loop: read the three fields with
`q.get` (raising when `q` is not a dict), keep the entry only when the guard
of the source holds, producing the cleaned record. -/
def checkQuestion (q : JVal) : Except Unit (Option NormQuestion) := do
  let question ← pyGetD q "question" JVal.null
  let options ← pyGetD q "options" (JVal.arr [])
  let answer_index ← pyGetD q "answer_index" JVal.null
  match question, options, jIntVal answer_index with
  | JVal.str qs, JVal.arr opts, some n =>
    if 3 ≤ opts.length ∧ opts.length ≤ 5 ∧ 0 ≤ n ∧ n < (opts.length : Int) then
      Except.ok (some ⟨pyStripStr qs, opts.map (fun o => pyStripStr (pyStr o)), n⟩)
    else Except.ok none
  | _, _, _ => Except.ok none

/-- The `for q in quiz.get("questions", [])` loop of `normalize_quiz`,
appending each accepted record in order. -/
def cleanQuestions : List JVal → Except Unit (List NormQuestion)
  | [] => Except.ok []
  | q :: rest => do
    let r ← checkQuestion q
    let tail ← cleanQuestions rest
    Except.ok (match r with
      | some nq => nq :: tail
      | none => tail)

/-- Translation of `normalize_quiz` from `src/app.py`: validate each entry of
the `questions` list, drop invalid ones, truncate to at most 5. -/
def normalize_quiz (quiz : JVal) : Except Unit (List NormQuestion) := do
  let qsv ← pyGetD quiz "questions" (JVal.arr [])
  let items ← pyIter qsv
  let cleaned ← cleanQuestions items
  Except.ok (cleaned.take 5)

/-- Spec-side description of which entries `normalize` keeps and how it copies
them (spec, section 4.4): keep an entry only if `question` is text, `options`
is a sequence of length 3 to 5, `answer_index` is an integer (Python
booleans are instances of `int`) and a valid index into `options`; the copy
trims the question and coerces every option to trimmed text. -/
def specKeptQuestion (q : JVal) : Option NormQuestion :=
  match q with
  | JVal.obj kvs =>
    match dictGet kvs "question", dictGet kvs "options", dictGet kvs "answer_index" with
    | some (JVal.str question), some (JVal.arr options), some ai =>
      match jIntVal ai with
      | some n =>
        if 3 ≤ options.length ∧ options.length ≤ 5 ∧ 0 ≤ n ∧ n < (options.length : Int) then
          some ⟨pyStripStr question, options.map (fun o => pyStripStr (pyStr o)), n⟩
        else none
      | none => none
    | _, _, _ => none
  | _ => none

/-!  The scorer (`evaluate_answers`).  -/

/-- One iteration of the `evaluate_answers` loop over question `i`: the
verdict flag `user_idx == ans_idx` and the detail line.  The chosen label is
guarded in the source (`0 <= user_idx < len(options)`), the correct label
`q["options"][ans_idx]` is not, so only the latter can raise. -/
def questionDetail (i : Nat) (q : NormQuestion) (user_idx : Option Int) : Except Unit (Bool × String) :=
  let is_correct : Bool := decide (user_idx = some q.answer_index)
  let chosen : String :=
    match user_idx with
    | some u =>
      if 0 ≤ u ∧ u < (q.options.length : Int) then q.options.getD u.toNat "" else "No answer"
    | none => "No answer"
  match pyIndex q.options q.answer_index with
  | Except.ok correctLabel =>
    Except.ok (is_correct,
      "Q" ++ toString (i + 1) ++ ": " ++
        (if is_correct then "✅ Correct" else "❌ Incorrect") ++
        " | Your answer: " ++ chosen ++ " | Correct: " ++ correctLabel)
  | Except.error e => Except.error e

/-- The `for i, q in enumerate(quiz_data)` loop of `evaluate_answers`:
`user_choices[i] if i < len(user_choices) else None`, then count and collect
detail lines. -/
def evalLoop (i : Nat) (qs : List NormQuestion) (user_choices : List (Option Int)) :
    Except Unit (Nat × List String) :=
  match qs with
  | [] => Except.ok (0, [])
  | q :: rest => do
    let user_idx := user_choices.getD i none
    let r ← questionDetail i q user_idx
    let t ← evalLoop (i + 1) rest user_choices
    Except.ok ((if r.1 then 1 else 0) + t.1, r.2 :: t.2)

/-- Translation of `evaluate_answers` from `src/app.py`.  The source compares
`correct >= total * 0.6` with IEEE doubles; this is modelled by the exact
comparison `10 * correct >= 6 * total`, which agrees with the double
computation for every integer `correct` and `total ≤ 5` (the only totals a
normalized quiz can have). -/
def evaluate_answers (user_choices : List (Option Int)) (quiz_data : List NormQuestion) :
    Except Unit (String × String) :=
  match evalLoop 0 quiz_data user_choices with
  | Except.error e => Except.error e
  | Except.ok (correct, details) =>
    if quiz_data.length = 0 then Except.ok ("No quiz generated yet.", "")
    else
      let score_text := "Score: " ++ toString correct ++ " / " ++ toString quiz_data.length
      let feedback :=
        if correct = quiz_data.length then "Great job. You’ve mastered this set."
        else if 10 * correct ≥ 6 * quiz_data.length then
          "Good work. Review the missed questions and try again."
        else "Keep practicing. Revisit the explanation and roadmap."
      Except.ok (score_text, feedback ++ "\n\n" ++ String.intercalate "\n" details)

/-- Validity of a quiz, the Quiz data-model invariant of the spec (section 3):
every question's `answer_index` is a valid index into its `options`. -/
def validQuiz (quiz : List NormQuestion) : Prop :=
  ∀ q ∈ quiz, 0 ≤ q.answer_index ∧ q.answer_index < (q.options.length : Int)

instance (quiz : List NormQuestion) : Decidable (validQuiz quiz) := by
  unfold validQuiz; infer_instance

/-- Spec-side verdict for one question (spec, section 4.5): the selection is
correct exactly when it equals `answer_index`; unanswered or out-of-range
selections count as incorrect. -/
def specIsCorrect (q : NormQuestion) (user_idx : Option Int) : Bool :=
  decide (user_idx = some q.answer_index)

/-- Spec-side detail line for question `i` (spec, section 4.5): ✔/✘ marker,
the chosen option's label or `No answer`, and the correct option's label. -/
def specDetailLine (i : Nat) (q : NormQuestion) (user_idx : Option Int) : String :=
  let chosen : String :=
    match user_idx with
    | some u =>
      if 0 ≤ u ∧ u < (q.options.length : Int) then q.options.getD u.toNat "" else "No answer"
    | none => "No answer"
  "Q" ++ toString (i + 1) ++ ": " ++
    (if specIsCorrect q user_idx then "✅ Correct" else "❌ Incorrect") ++
    " | Your answer: " ++ chosen ++ " | Correct: " ++ q.options.getD q.answer_index.toNat ""

/-- Spec-side count of correct answers for the questions from position `i` on. -/
def specCountFrom (i : Nat) (qs : List NormQuestion) (sel : List (Option Int)) : Nat :=
  match qs with
  | [] => 0
  | q :: rest =>
    (if specIsCorrect q (sel.getD i none) then 1 else 0) + specCountFrom (i + 1) rest sel

/-- Spec-side detail lines for the questions from position `i` on. -/
def specDetailLines (i : Nat) (qs : List NormQuestion) (sel : List (Option Int)) : List String :=
  match qs with
  | [] => []
  | q :: rest => specDetailLine i q (sel.getD i none) :: specDetailLines (i + 1) rest sel

/-- Spec-side number of correct answers. -/
def specCorrectCount (sel : List (Option Int)) (qs : List NormQuestion) : Nat :=
  specCountFrom 0 qs sel

example : evaluate_answers [] [] = Except.ok ("No quiz generated yet.", "") := by rfl
example : evaluate_answers [some 2] [⟨"?", ["A", "B", "C"], 2⟩] =
    Except.ok ("Score: 1 / 1",
      "Great job. You’ve mastered this set.\n\nQ1: ✅ Correct | Your answer: C | Correct: C") := by rfl
example : evaluate_answers [none] [⟨"?", ["A", "B", "C"], 2⟩] =
    Except.ok ("Score: 0 / 1",
      "Keep practicing. Revisit the explanation and roadmap.\n\nQ1: ❌ Incorrect | Your answer: No answer | Correct: C") := by rfl

/-!  The prompt builders and the completion client.  -/

/-- Translation of `build_system_context` from `src/app.py`. -/
def build_system_context (subject topic language level : String) : String :=
  "Subject: " ++ subject ++ "\n" ++
  "Topic: " ++ topic ++ "\n" ++
  "Language: " ++ language ++ "\n" ++
  "Student Level: " ++ level ++ "\n"

/-- Translation of `prompt_explanation` from `src/app.py`. -/
def prompt_explanation (subject topic language level : String) : String :=
  build_system_context subject topic language level ++ "\n" ++
  "Task: Write a clear, friendly, step-by-step explanation of the topic. " ++
  "Use short paragraphs, numbered steps where helpful, and examples. " ++
  "Keep it concise but thorough. Reply in the specified language only."

/-- Translation of `prompt_resources` from `src/app.py`. -/
def prompt_resources (subject topic language level : String) : String :=
  build_system_context subject topic language level ++ "\n" ++
  "Task: Recommend at least 3 quality learning resources (mix of articles, videos, documentation). " ++
  "Return as a markdown bulleted list. Each item must include a title, the type (Article/Video/Docs), " ++
  "a one-line why it's useful, and a URL. Reply in the specified language only."

/-- Translation of `prompt_roadmap` from `src/app.py`. -/
def prompt_roadmap (subject topic language level : String) : String :=
  build_system_context subject topic language level ++ "\n" ++
  "Task: Produce a structured learning roadmap for this topic and level. " ++
  "Organize into stages with bullet points, estimated effort, and key outcomes. " ++
  "Add a short list of common mistakes to avoid. Reply in the specified language only."

/-- Translation of `prompt_quiz` from `src/app.py`. -/
def prompt_quiz (subject topic language level : String) : String :=
  build_system_context subject topic language level ++ "\n" ++
  "Task: Create a short multiple-choice quiz with 3 to 5 questions. " ++
  "Return STRICT JSON only with this schema:\n" ++
  "\x7b\n" ++
  "  \"questions\": [\n" ++
  "    \x7b\n" ++
  "      \"question\": \"string\",\n" ++
  "      \"options\": [\"A\", \"B\", \"C\", \"D\"],\n" ++
  "      \"answer_index\": 0\n" ++
  "    \x7d\n" ++
  "  ]\n" ++
  "\x7d\n" ++
  "Requirements:\n" ++
  "- options length 3-5\n" ++
  "- answer_index is an integer index into the options array\n" ++
  "- No additional commentary or code fences\n" ++
  "- Write the question text and options in " ++ language ++ "."

/-- Task kinds of the spec (section 3): which prompt template is used. -/
inductive TaskKind where
  | explanationTask : TaskKind
  | resourcesTask : TaskKind
  | roadmapTask : TaskKind
  | quizTask : TaskKind

/-- The spec's `buildPrompt(taskKind, subject, topic, language, level)`
contract, dispatching to the four prompt builders of the source. -/
def buildPrompt (k : TaskKind) (subject topic language level : String) : String :=
  match k with
  | TaskKind.explanationTask => prompt_explanation subject topic language level
  | TaskKind.resourcesTask => prompt_resources subject topic language level
  | TaskKind.roadmapTask => prompt_roadmap subject topic language level
  | TaskKind.quizTask => prompt_quiz subject topic language level

/-- Outcome of the external `client.chat.completions.create(...)` call and the
subsequent `response.choices[0].message.content` access: either the returned
text, or the message of the raised exception.  The call is the only effectful
part of `generate_with_groq`, so the function is parametrized by it. -/
def ApiOutcome := Except String String

/-- Translation of `generate_with_groq` from `src/app.py`: fail fast on a
missing credential (the key is falsy exactly when it is the empty string),
otherwise return the completion text, converting any raised exception into a
short diagnostic message. -/
def generate_with_groq (GROQ_API_KEY : String) (outcome : ApiOutcome) (prompt : String) : String :=
  if GROQ_API_KEY = "" then
    "❌ Missing GROQ_API_KEY. Set it in your environment or Space secrets."
  else
    match outcome with
    | Except.ok content => content
    | Except.error e => "❌ API error: " ++ e

example : generate_with_groq "" (Except.ok "hello") "p" =
    "❌ Missing GROQ_API_KEY. Set it in your environment or Space secrets." := by rfl
example : generate_with_groq "k" (Except.error "boom") "p" = "❌ API error: boom" := by rfl

/-!  Lemmas about stripping.  -/

theorem dropWhile_self_idem {α : Type} (p : α → Bool) (l : List α) :
    (l.dropWhile p).dropWhile p = l.dropWhile p := by
  induction l with
  | nil => rfl
  | cons a l ih =>
    by_cases h : p a
    · simp only [List.dropWhile_cons_of_pos h]; exact ih
    · simp only [List.dropWhile_cons_of_neg h]

theorem head?_dropWhile_false {α : Type} (p : α → Bool) (l : List α) (c : α) :
    (l.dropWhile p).head? = some c → p c = false := by
  induction l with
  | nil => intro h; simp at h
  | cons a l ih =>
    by_cases h : p a
    · simp only [List.dropWhile_cons_of_pos h]; exact ih
    · simp only [List.dropWhile_cons_of_neg h, List.head?_cons]
      intro hc
      cases hc
      simp only [Bool.not_eq_true] at h
      exact h

theorem dropWhile_eq_self_of_head {α : Type} (p : α → Bool) (l : List α)
    (h : ∀ c, l.head? = some c → p c = false) : l.dropWhile p = l := by
  cases l with
  | nil => rfl
  | cons a l =>
    have := h a rfl
    simp only [List.dropWhile_cons, this]
    simp

theorem pyStripChars_idem (cs : List Char) :
    pyStripChars (pyStripChars cs) = pyStripChars cs := by
  unfold pyStripChars
  set A := cs.dropWhile isPySpace with hA
  set B := A.reverse.dropWhile isPySpace with hB
  have hBA : B <:+ A.reverse := by rw [hB]; exact List.dropWhile_suffix _
  have h1 : B.reverse.dropWhile isPySpace = B.reverse := by
    apply dropWhile_eq_self_of_head
    intro c hc
    rw [List.head?_reverse] at hc
    obtain ⟨t, ht⟩ := hBA
    have hBne : B ≠ [] := by
      intro he; rw [he] at hc; simp at hc
    have hlast : A.reverse.getLast? = some c := by
      rw [← ht, List.getLast?_append, hc, Option.or_some]
    rw [List.getLast?_reverse] at hlast
    exact head?_dropWhile_false isPySpace cs c (by rw [← hA]; exact hlast)
  rw [h1, List.reverse_reverse, dropWhile_self_idem]

theorem pyStripStr_idem (s : String) : pyStripStr (pyStripStr s) = pyStripStr s := by
  show String.mk (pyStripChars (String.mk (pyStripChars s.data)).data) = _
  exact congrArg String.mk (pyStripChars_idem s.data)

/-!  Lemmas about the normalizer.  -/

theorem checkQuestion_spec (kvs : List (String × JVal)) :
    checkQuestion (JVal.obj kvs) = Except.ok (specKeptQuestion (JVal.obj kvs)) := by
  rcases h1 : dictGet kvs "question" with _ | v1 <;>
  rcases h2 : dictGet kvs "options" with _ | v2 <;>
  rcases h3 : dictGet kvs "answer_index" with _ | v3 <;>
  simp only [checkQuestion, specKeptQuestion, pyGetD, h1, h2, h3, Option.getD_some,
    Option.getD_none, bind, Except.bind] <;>
  try rfl
  all_goals try (cases v1)
  all_goals try (cases v2)
  all_goals try rfl
  all_goals try (rcases hj : jIntVal v3 with _ | n <;> simp only [hj, apply_ite] <;> try rfl)
  all_goals try (split <;> simp [*])

theorem cleanQuestions_filterMap (items : List JVal)
    (h : ∀ q ∈ items, q.isObj = true) :
    cleanQuestions items = Except.ok (items.filterMap specKeptQuestion) := by
  induction items with
  | nil => rfl
  | cons q rest ih =>
    have hq : q.isObj = true := h q (List.mem_cons_self q rest)
    have hrest : ∀ x ∈ rest, x.isObj = true := fun x hx => h x (List.mem_cons_of_mem q hx)
    obtain ⟨kvs, rfl⟩ : ∃ kvs, q = JVal.obj kvs := by
      cases q <;> simp [JVal.isObj] at hq ⊢
    simp only [cleanQuestions, checkQuestion_spec, bind, Except.bind, ih hrest,
      List.filterMap_cons]
    cases specKeptQuestion (JVal.obj kvs) <;> rfl

theorem specKeptQuestion_shape (q : JVal) (nq : NormQuestion)
    (h : specKeptQuestion q = some nq) :
    nq.question = pyStripStr nq.question ∧ (∀ o ∈ nq.options, o = pyStripStr o) ∧
      3 ≤ nq.options.length ∧ nq.options.length ≤ 5 ∧
      0 ≤ nq.answer_index ∧ nq.answer_index < (nq.options.length : Int) := by
  unfold specKeptQuestion at h
  split at h <;> try exact Option.noConfusion h
  split at h <;> try exact Option.noConfusion h
  split at h <;> try exact Option.noConfusion h
  split at h <;> try exact Option.noConfusion h
  rename_i hc
  cases h
  refine ⟨(pyStripStr_idem _).symm, ?_, ?_, ?_, hc.2.2.1, ?_⟩
  · intro o ho
    obtain ⟨x, _, rfl⟩ := List.mem_map.mp ho
    exact (pyStripStr_idem (pyStr x)).symm
  · simpa using hc.1
  · simpa using hc.2.1
  · simpa using hc.2.2.2

theorem checkQuestion_ok_some (q : JVal) (nq : NormQuestion)
    (h : checkQuestion q = Except.ok (some nq)) : specKeptQuestion q = some nq := by
  cases q <;> try exact Except.noConfusion h
  case obj kvs =>
    rw [checkQuestion_spec] at h
    exact Except.ok.inj h

theorem cleanQuestions_mem (items : List JVal) (cleaned : List NormQuestion)
    (h : cleanQuestions items = Except.ok cleaned) :
    ∀ nq ∈ cleaned, ∃ q, checkQuestion q = Except.ok (some nq) := by
  induction items generalizing cleaned with
  | nil =>
    simp only [cleanQuestions, Except.ok.injEq] at h
    subst h
    intro nq hnq
    cases hnq
  | cons q rest ih =>
    cases hc : checkQuestion q with
    | error e => simp [cleanQuestions, hc, bind, Except.bind] at h
    | ok r =>
      cases ht : cleanQuestions rest with
      | error e => simp [cleanQuestions, hc, ht, bind, Except.bind] at h
      | ok tail =>
        simp only [cleanQuestions, hc, ht, bind, Except.bind, Except.ok.injEq] at h
        intro nq hnq
        cases r with
        | some nq0 =>
          rw [← h] at hnq
          rcases List.mem_cons.mp hnq with rfl | hmem
          · exact ⟨q, hc⟩
          · exact ih tail ht nq hmem
        | none =>
          rw [← h] at hnq
          exact ih tail ht nq hnq

/-- C1 (amended): for inputs whose `questions` value iterates to a list of
mappings, `normalize_quiz` keeps exactly the entries accepted by the spec's
filter (`question` is text, `options` a sequence of length 3 to 5,
`answer_index` an integer — Python booleans included — and a valid index),
in their original order with the question trimmed and each option coerced
to trimmed text, truncated to at most 5 entries; every returned element
satisfies 3 ≤ len(options) ≤ 5 and 0 ≤ answer_index < len(options). -/
theorem C1_normalize_keeps_exactly_valid (quiz qsv : JVal) (items : List JVal)
    (h1 : pyGetD quiz "questions" (JVal.arr []) = Except.ok qsv)
    (h2 : pyIter qsv = Except.ok items)
    (h3 : ∀ q ∈ items, q.isObj = true) :
    normalize_quiz quiz = Except.ok ((items.filterMap specKeptQuestion).take 5) ∧
    ((items.filterMap specKeptQuestion).take 5).length ≤ 5 ∧
    ∀ nq ∈ (items.filterMap specKeptQuestion).take 5,
      3 ≤ nq.options.length ∧ nq.options.length ≤ 5 ∧
        0 ≤ nq.answer_index ∧ nq.answer_index < (nq.options.length : Int) := by
  refine ⟨?_, ?_, ?_⟩
  · unfold normalize_quiz
    simp only [h1, h2, cleanQuestions_filterMap items h3, bind, Except.bind]
  · simp only [List.length_take]
    omega
  · intro nq hnq
    have hmem : nq ∈ items.filterMap specKeptQuestion := List.take_subset _ _ hnq
    obtain ⟨qq, _, hsome⟩ := List.mem_filterMap.mp hmem
    have hs := specKeptQuestion_shape qq nq hsome
    exact ⟨hs.2.2.1, hs.2.2.2.1, hs.2.2.2.2.1, hs.2.2.2.2.2⟩

/-- Witness for C1: the spec's own example — a valid entry (with whitespace to
trim) next to an entry whose `answer_index` equals `len(options)`; the valid
entry is kept (trimmed), the out-of-range sibling is dropped. -/
theorem C1_witness :
    normalize_quiz (JVal.obj [("questions", JVal.arr
      [JVal.obj [("question", JVal.str " Paris? "),
                 ("options", JVal.arr [JVal.str "A", JVal.str " B ", JVal.str "C"]),
                 ("answer_index", JVal.int 0)],
       JVal.obj [("question", JVal.str "x"),
                 ("options", JVal.arr [JVal.str "A", JVal.str "B", JVal.str "C"]),
                 ("answer_index", JVal.int 3)]])]) =
      Except.ok [⟨"Paris?", ["A", "B", "C"], 0⟩] := by
  have h := C1_normalize_keeps_exactly_valid
    (JVal.obj [("questions", JVal.arr
      [JVal.obj [("question", JVal.str " Paris? "),
                 ("options", JVal.arr [JVal.str "A", JVal.str " B ", JVal.str "C"]),
                 ("answer_index", JVal.int 0)],
       JVal.obj [("question", JVal.str "x"),
                 ("options", JVal.arr [JVal.str "A", JVal.str "B", JVal.str "C"]),
                 ("answer_index", JVal.int 3)]])])
    (JVal.arr
      [JVal.obj [("question", JVal.str " Paris? "),
                 ("options", JVal.arr [JVal.str "A", JVal.str " B ", JVal.str "C"]),
                 ("answer_index", JVal.int 0)],
       JVal.obj [("question", JVal.str "x"),
                 ("options", JVal.arr [JVal.str "A", JVal.str "B", JVal.str "C"]),
                 ("answer_index", JVal.int 3)]])
    [JVal.obj [("question", JVal.str " Paris? "),
               ("options", JVal.arr [JVal.str "A", JVal.str " B ", JVal.str "C"]),
               ("answer_index", JVal.int 0)],
     JVal.obj [("question", JVal.str "x"),
               ("options", JVal.arr [JVal.str "A", JVal.str "B", JVal.str "C"]),
               ("answer_index", JVal.int 3)]] rfl rfl (by decide)
  exact h.1

/-- Counterexample to C1 as stated: on `\x7b"questions": [1]\x7d` the claim
says the non-conforming entry `1` is silently dropped (yielding the empty
list), but `normalize_quiz` raises `AttributeError` (`1 .get(...)`), modelled
as `.error ()`. -/
theorem C1_counterexample :
    normalize_quiz (JVal.obj [("questions", JVal.arr [JVal.int 1])]) = Except.error () := by
  rfl

/-- C4 (amended): every question record produced by `normalize_quiz` has
question text already trimmed of surrounding whitespace (it equals its own
strip, though it may be empty), all options trimmed, and satisfies the full
options-length and answer-index constraints — no partially-valid question is
kept. -/
theorem C4_stored_questions_trimmed_valid (quiz : JVal) (res : List NormQuestion)
    (h : normalize_quiz quiz = Except.ok res) :
    ∀ nq ∈ res, nq.question = pyStripStr nq.question ∧
      (∀ o ∈ nq.options, o = pyStripStr o) ∧
      3 ≤ nq.options.length ∧ nq.options.length ≤ 5 ∧
      0 ≤ nq.answer_index ∧ nq.answer_index < (nq.options.length : Int) := by
  unfold normalize_quiz at h
  cases hg : pyGetD quiz "questions" (JVal.arr []) with
  | error e => simp [hg, bind, Except.bind] at h
  | ok qsv =>
    cases hi : pyIter qsv with
    | error e => simp [hg, hi, bind, Except.bind] at h
    | ok items =>
      cases hc : cleanQuestions items with
      | error e => simp [hg, hi, hc, bind, Except.bind] at h
      | ok cleaned =>
        simp only [hg, hi, hc, bind, Except.bind, Except.ok.injEq] at h
        subst h
        intro nq hnq
        have hmem : nq ∈ cleaned := List.take_subset _ _ hnq
        obtain ⟨q, hq⟩ := cleanQuestions_mem items cleaned hc nq hmem
        exact specKeptQuestion_shape q nq (checkQuestion_ok_some q nq hq)

/-- Witness for C4: a concrete normalization whose single output record is
trimmed and satisfies all the constraints. -/
theorem C4_witness :
    (⟨"Paris?", ["A", "B", "C"], 0⟩ : NormQuestion).question =
      pyStripStr (⟨"Paris?", ["A", "B", "C"], 0⟩ : NormQuestion).question ∧
    (∀ o ∈ (⟨"Paris?", ["A", "B", "C"], 0⟩ : NormQuestion).options, o = pyStripStr o) ∧
    3 ≤ (⟨"Paris?", ["A", "B", "C"], 0⟩ : NormQuestion).options.length ∧
    (⟨"Paris?", ["A", "B", "C"], 0⟩ : NormQuestion).options.length ≤ 5 ∧
    0 ≤ (⟨"Paris?", ["A", "B", "C"], 0⟩ : NormQuestion).answer_index ∧
    (⟨"Paris?", ["A", "B", "C"], 0⟩ : NormQuestion).answer_index <
      ((⟨"Paris?", ["A", "B", "C"], 0⟩ : NormQuestion).options.length : Int) :=
  C4_stored_questions_trimmed_valid
    (JVal.obj [("questions", JVal.arr
      [JVal.obj [("question", JVal.str " Paris? "),
                 ("options", JVal.arr [JVal.str "A", JVal.str " B ", JVal.str "C"]),
                 ("answer_index", JVal.int 0)]])])
    [⟨"Paris?", ["A", "B", "C"], 0⟩] rfl
    ⟨"Paris?", ["A", "B", "C"], 0⟩ (List.mem_cons_self _ _)

/-- Counterexample to C4 as stated: a question whose text is entirely
whitespace is kept, and its stored text is the empty string — not non-empty
after trimming. -/
theorem C4_counterexample :
    normalize_quiz (JVal.obj [("questions", JVal.arr
      [JVal.obj [("question", JVal.str "   "),
                 ("options", JVal.arr [JVal.str "a", JVal.str "b", JVal.str "c"]),
                 ("answer_index", JVal.int 0)]])]) =
      Except.ok [⟨"", ["a", "b", "c"], 0⟩] ∧ ("" : String).length = 0 := by
  exact ⟨rfl, rfl⟩

/-!  C7, C8, C9.  -/

/-- C7: the full pipeline on the spec's concrete example — prose around a quiz
object — yields exactly one normalized question, with `answer_index = 1`. -/
theorem C7_pipeline_concrete :
    normalize_quiz (parse_quiz_json
        "Sure! \x7b\"questions\":[\x7b\"question\":\"2+2?\",\"options\":[\"3\",\"4\",\"5\"],\"answer_index\":1\x7d]\x7d Hope that helps!") =
      Except.ok [⟨"2+2?", ["3", "4", "5"], 1⟩] ∧
    ([(⟨"2+2?", ["3", "4", "5"], 1⟩ : NormQuestion)]).length = 1 ∧
    (⟨"2+2?", ["3", "4", "5"], 1⟩ : NormQuestion).answer_index = 1 :=
  ⟨rfl, rfl, rfl⟩

/-- C8: the completion operation never propagates a raised fault.  With no
credential it returns the credential-missing message and its result does not
depend on the outcome of the (never attempted) network call; with a
credential, a raised transport or provider failure is returned as an error
string carrying the diagnostic, and a successful call returns its text. -/
theorem C8_completion_never_raises (key : String) (outcome : ApiOutcome) (prompt : String) :
    (key = "" →
      generate_with_groq key outcome prompt =
        "❌ Missing GROQ_API_KEY. Set it in your environment or Space secrets." ∧
      ∀ outcome2, generate_with_groq key outcome prompt = generate_with_groq key outcome2 prompt) ∧
    (key ≠ "" → ∀ e, outcome = Except.error e →
      generate_with_groq key outcome prompt = "❌ API error: " ++ e) ∧
    (key ≠ "" → ∀ content, outcome = Except.ok content →
      generate_with_groq key outcome prompt = content) := by
  refine ⟨?_, ?_, ?_⟩
  · intro h
    exact ⟨by simp [generate_with_groq, h], fun outcome2 => by simp [generate_with_groq, h]⟩
  · intro h e he
    simp [generate_with_groq, h, he]
  · intro h content hc
    simp [generate_with_groq, h, hc]

/-- Witness for C8: the two failure paths at concrete inputs. -/
theorem C8_witness :
    generate_with_groq "" (Except.ok "hello") "p" =
      "❌ Missing GROQ_API_KEY. Set it in your environment or Space secrets." ∧
    generate_with_groq "k" (Except.error "boom") "p" = "❌ API error: boom" :=
  ⟨((C8_completion_never_raises "" (Except.ok "hello") "p").1 rfl).1,
   (C8_completion_never_raises "k" (Except.error "boom") "p").2.1 (by decide) "boom" rfl⟩

theorem infix_append_right {α : Type} {l₁ l₂ : List α} (l₀ : List α) (h : l₁ <:+: l₂) :
    l₁ <:+: l₀ ++ l₂ := by
  obtain ⟨s, t, he⟩ := h
  exact ⟨l₀ ++ s, t, by rw [← he]; simp⟩

/-- C9: for every task kind, the built prompt contains the literal subject,
topic, language and level strings passed in (context-header invariant). -/
theorem C9_prompts_contain_context (k : TaskKind) (subject topic language level : String) :
    subject.data <:+: (buildPrompt k subject topic language level).data ∧
    topic.data <:+: (buildPrompt k subject topic language level).data ∧
    language.data <:+: (buildPrompt k subject topic language level).data ∧
    level.data <:+: (buildPrompt k subject topic language level).data := by
  cases k <;> refine ⟨?_, ?_, ?_, ?_⟩ <;>
    simp only [buildPrompt, prompt_explanation, prompt_resources, prompt_roadmap, prompt_quiz,
      build_system_context, String.data_append, List.append_assoc] <;>
    repeat
      first
      | exact (List.prefix_append _ _).isInfix
      | apply infix_append_right

/-!  C3.  -/

theorem parseFallback_charact (text : String) :
    (∃ b v, _extract_first_json_object text = some b ∧ json_loads b = some v ∧
      pyContainsQuestions v = some true ∧ parseFallback text = v) ∨
    parseFallback text = emptyQuiz := by
  unfold parseFallback
  cases he : _extract_first_json_object text with
  | none => exact Or.inr rfl
  | some block =>
    by_cases hb : block = ""
    · simp only [hb, if_pos rfl]
      exact Or.inr rfl
    · simp only [if_neg hb]
      cases hj : json_loads block with
      | none => exact Or.inr rfl
      | some parsed =>
        dsimp only
        cases hc : pyContainsQuestions parsed with
        | none => exact Or.inr rfl
        | some bv =>
          cases bv with
          | true => exact Or.inl ⟨block, parsed, rfl, hj, hc, rfl⟩
          | false => exact Or.inr rfl

/-- C3 (amended): `parse_quiz_json` is total (the source catches every
exception of its two attempts) and follows the attempt order: accept the
whole-text `json.loads` result when the Python membership test
`"questions" in parsed` succeeds (for a dict that means a `questions` key;
for a list, an element equal to `"questions"`; for a string, a substring);
otherwise parse the extractor's candidate and accept under the same test;
otherwise return `\x7b"questions": []\x7d`. -/
theorem C3_parse_attempt_order (text : String) :
    (∃ v, json_loads text = some v ∧ pyContainsQuestions v = some true ∧
      parse_quiz_json text = v) ∨
    ((json_loads text = none ∨
        ∃ v0, json_loads text = some v0 ∧ pyContainsQuestions v0 ≠ some true) ∧
      ∃ b v, _extract_first_json_object text = some b ∧ json_loads b = some v ∧
        pyContainsQuestions v = some true ∧ parse_quiz_json text = v) ∨
    parse_quiz_json text = emptyQuiz := by
  unfold parse_quiz_json
  cases hj : json_loads text with
  | some parsed =>
    dsimp only
    cases hc : pyContainsQuestions parsed with
    | some bv =>
      cases bv with
      | true => exact Or.inl ⟨parsed, rfl, hc, rfl⟩
      | false =>
        rcases parseFallback_charact text with ⟨b, v, h1, h2, h3, h4⟩ | hfb
        · exact Or.inr (Or.inl ⟨Or.inr ⟨parsed, rfl, by simp [hc]⟩, b, v, h1, h2, h3, h4⟩)
        · exact Or.inr (Or.inr hfb)
    | none =>
      rcases parseFallback_charact text with ⟨b, v, h1, h2, h3, h4⟩ | hfb
      · exact Or.inr (Or.inl ⟨Or.inr ⟨parsed, rfl, by simp [hc]⟩, b, v, h1, h2, h3, h4⟩)
      · exact Or.inr (Or.inr hfb)
  | none =>
    rcases parseFallback_charact text with ⟨b, v, h1, h2, h3, h4⟩ | hfb
    · exact Or.inr (Or.inl ⟨Or.inl rfl, b, v, h1, h2, h3, h4⟩)
    · exact Or.inr (Or.inr hfb)

/-- Counterexample to C3 as stated: on the text `["questions"]` the whole-text
parse succeeds with a JSON array — a value with no `questions` key — yet
`parse_quiz_json` accepts it (Python's `in` tests list membership), instead
of the claimed `\x7b"questions": []\x7d`. -/
theorem C3_counterexample :
    parse_quiz_json "[\"questions\"]" = JVal.arr [JVal.str "questions"] ∧
    jvalHasKey (JVal.arr [JVal.str "questions"]) "questions" = false ∧
    JVal.arr [JVal.str "questions"] ≠ emptyQuiz :=
  ⟨rfl, rfl, fun h => JVal.noConfusion h⟩

/-!  Lemmas about the scorer.  -/

theorem pyIndex_valid (l : List String) (a : Int) (h0 : 0 ≤ a)
    (hl : a < (l.length : Int)) : pyIndex l a = Except.ok (l.getD a.toNat "") := by
  have hna : ¬ a < 0 := by omega
  have hlt : a.toNat < l.length := by omega
  unfold pyIndex
  simp only [if_neg hna, List.get?_eq_getElem?, List.getElem?_eq_getElem hlt,
    List.getD_eq_getElem?_getD, Option.getD_some]

theorem questionDetail_ok (i : Nat) (q : NormQuestion) (u : Option Int)
    (h0 : 0 ≤ q.answer_index) (hl : q.answer_index < (q.options.length : Int)) :
    questionDetail i q u = Except.ok (specIsCorrect q u, specDetailLine i q u) := by
  unfold questionDetail specDetailLine specIsCorrect
  rw [pyIndex_valid q.options q.answer_index h0 hl]

theorem evalLoop_ok (qs : List NormQuestion) : ∀ (i : Nat) (sel : List (Option Int)),
    (∀ q ∈ qs, 0 ≤ q.answer_index ∧ q.answer_index < (q.options.length : Int)) →
    evalLoop i qs sel = Except.ok (specCountFrom i qs sel, specDetailLines i qs sel) := by
  induction qs with
  | nil => intro i sel _; rfl
  | cons q rest ih =>
    intro i sel h
    have hq := h q (List.mem_cons_self q rest)
    have hrest : ∀ x ∈ rest, 0 ≤ x.answer_index ∧ x.answer_index < (x.options.length : Int) :=
      fun x hx => h x (List.mem_cons_of_mem q hx)
    unfold evalLoop
    dsimp only
    rw [questionDetail_ok i q (sel.getD i none) hq.1 hq.2]
    rw [show (bind (Except.ok (specIsCorrect q (sel.getD i none), specDetailLine i q (sel.getD i none)) :
        Except Unit (Bool × String)) : ((Bool × String) → Except Unit (Nat × List String)) →
        Except Unit (Nat × List String)) = fun f => f (specIsCorrect q (sel.getD i none),
          specDetailLine i q (sel.getD i none)) from rfl]
    rw [ih (i + 1) sel hrest]
    rfl

theorem specDetailLines_length (qs : List NormQuestion) :
    ∀ (i : Nat) (sel : List (Option Int)), (specDetailLines i qs sel).length = qs.length := by
  induction qs with
  | nil => intro i sel; rfl
  | cons q rest ih =>
    intro i sel
    simp only [specDetailLines, List.length_cons, ih (i + 1) sel]

theorem specDetailLines_getD (qs : List NormQuestion) :
    ∀ (i j : Nat) (sel : List (Option Int)) (hj : j < qs.length),
    (specDetailLines i qs sel).getD j "" =
      specDetailLine (i + j) (qs.get ⟨j, hj⟩) (sel.getD (i + j) none) := by
  induction qs with
  | nil => intro i j sel hj; simp at hj
  | cons q rest ih =>
    intro i j sel hj
    cases j with
    | zero => simp [specDetailLines]
    | succ j2 =>
      simp only [specDetailLines, List.getD_cons_succ]
      rw [ih (i + 1) j2 sel (by simpa using hj)]
      have harith : i + 1 + j2 = i + (j2 + 1) := by omega
      rw [harith]
      rfl

theorem suffix_append_right {α : Type} {l₁ l₂ : List α} (l₀ : List α) (h : l₁ <:+ l₂) :
    l₁ <:+ l₀ ++ l₂ := by
  obtain ⟨s, he⟩ := h
  exact ⟨l₀ ++ s, by rw [← he]; simp⟩

theorem specDetailLine_correct_label_infix (i : Nat) (q : NormQuestion) (u : Option Int) :
    (q.options.getD q.answer_index.toNat "").data <:+: (specDetailLine i q u).data := by
  unfold specDetailLine
  refine List.IsSuffix.isInfix ?_
  simp only [String.data_append, List.append_assoc]
  repeat
    first
    | exact List.suffix_append _ _
    | apply suffix_append_right

/-- C5: on an empty quiz the scorer returns the fixed summary with empty
feedback regardless of the selections; otherwise the summary reports
correct out of total and the feedback opens with the mastery message when all
are correct, the review-missed message when at least 60 percent are correct,
and the revisit message below that, followed by the per-question detail
lines.  The length bound restates the Quiz data model (source quizzes have at
most 5 questions, where the source's `total * 0.6` double arithmetic agrees
with the exact comparison modelled here). -/
theorem C5_score_summary_and_tiers (user_choices : List (Option Int))
    (quiz_data : List NormQuestion) (hv : validQuiz quiz_data)
    (hlen : quiz_data.length ≤ 5) :
    (quiz_data = [] →
      evaluate_answers user_choices quiz_data = Except.ok ("No quiz generated yet.", "")) ∧
    (quiz_data ≠ [] →
      evaluate_answers user_choices quiz_data = Except.ok
        ("Score: " ++ toString (specCorrectCount user_choices quiz_data) ++ " / " ++
            toString quiz_data.length,
         (if specCorrectCount user_choices quiz_data = quiz_data.length then
            "Great job. You’ve mastered this set."
          else if 10 * specCorrectCount user_choices quiz_data ≥ 6 * quiz_data.length then
            "Good work. Review the missed questions and try again."
          else "Keep practicing. Revisit the explanation and roadmap.") ++ "\n\n" ++
          String.intercalate "\n" (specDetailLines 0 quiz_data user_choices))) := by
  constructor
  · intro h
    subst h
    rfl
  · intro hne
    have hlz : ¬ quiz_data.length = 0 := by
      intro h0
      exact hne (List.length_eq_zero.mp h0)
    unfold evaluate_answers
    rw [evalLoop_ok quiz_data 0 user_choices hv]
    simp only [if_neg hlz, specCorrectCount]

/-- C6: the per-question verdict compares the selected index to the
question's `answer_index`; the detail line at each position is the spec's
detail line; an unanswered position, or one whose selected index is outside
`[0, len(options))`, is reported as `No answer` and counted incorrect; and
the correct option's label appears in every detail line. -/
theorem C6_per_question_verdicts (user_choices : List (Option Int))
    (quiz_data : List NormQuestion) (hv : validQuiz quiz_data)
    (i : Nat) (hi : i < quiz_data.length) :
    evalLoop 0 quiz_data user_choices = Except.ok
      (specCorrectCount user_choices quiz_data, specDetailLines 0 quiz_data user_choices) ∧
    (specDetailLines 0 quiz_data user_choices).getD i "" =
      specDetailLine i (quiz_data.get ⟨i, hi⟩) (user_choices.getD i none) ∧
    ((quiz_data.get ⟨i, hi⟩).options.getD (quiz_data.get ⟨i, hi⟩).answer_index.toNat "").data <:+:
      ((specDetailLines 0 quiz_data user_choices).getD i "").data ∧
    (∀ u : Int, user_choices.getD i none = some u →
      (u < 0 ∨ ((quiz_data.get ⟨i, hi⟩).options.length : Int) ≤ u) →
      specDetailLine i (quiz_data.get ⟨i, hi⟩) (user_choices.getD i none) =
        "Q" ++ toString (i + 1) ++ ": " ++ "❌ Incorrect" ++ " | Your answer: " ++ "No answer" ++
          " | Correct: " ++
          ((quiz_data.get ⟨i, hi⟩).options.getD (quiz_data.get ⟨i, hi⟩).answer_index.toNat "") ∧
      specIsCorrect (quiz_data.get ⟨i, hi⟩) (user_choices.getD i none) = false) ∧
    (user_choices.getD i none = none →
      specDetailLine i (quiz_data.get ⟨i, hi⟩) (user_choices.getD i none) =
        "Q" ++ toString (i + 1) ++ ": " ++ "❌ Incorrect" ++ " | Your answer: " ++ "No answer" ++
          " | Correct: " ++
          ((quiz_data.get ⟨i, hi⟩).options.getD (quiz_data.get ⟨i, hi⟩).answer_index.toNat "") ∧
      specIsCorrect (quiz_data.get ⟨i, hi⟩) (user_choices.getD i none) = false) := by
  have hq := hv (quiz_data.get ⟨i, hi⟩) (quiz_data.get_mem i hi)
  refine ⟨evalLoop_ok quiz_data 0 user_choices hv, ?_, ?_, ?_, ?_⟩
  · have := specDetailLines_getD quiz_data 0 i user_choices hi
    simpa using this
  · have h2 := specDetailLines_getD quiz_data 0 i user_choices hi
    simp only [Nat.zero_add] at h2
    rw [h2]
    exact specDetailLine_correct_label_infix i _ _
  · intro u hu hrange
    rw [hu]
    have hne : ¬ (0 ≤ u ∧ u < ((quiz_data.get ⟨i, hi⟩).options.length : Int)) := by
      rcases hrange with h | h <;> omega
    have hcne : specIsCorrect (quiz_data.get ⟨i, hi⟩) (some u) = false := by
      have hne2 : u ≠ (quiz_data.get ⟨i, hi⟩).answer_index := by
        rcases hrange with h | h <;> omega
      simp only [specIsCorrect, Option.some.injEq, decide_eq_false_iff_not]
      exact hne2
    constructor
    · unfold specDetailLine
      dsimp only
      rw [if_neg hne, hcne]
      rfl
    · exact hcne
  · intro hu
    rw [hu]
    constructor
    · rfl
    · rfl

/-- C10: for every valid quiz and every selections list — including one
strictly shorter than the quiz — `evaluate_answers` performs no out-of-bounds
access and does not raise; a position with no corresponding selection is
treated as unanswered, reported as `No answer`, and counted incorrect. -/
theorem C10_no_oob_short_selections (user_choices : List (Option Int))
    (quiz_data : List NormQuestion) (hv : validQuiz quiz_data) :
    (∃ out, evaluate_answers user_choices quiz_data = Except.ok out) ∧
    ∀ (i : Nat) (hi : i < quiz_data.length), user_choices.length ≤ i →
      user_choices.getD i none = none ∧
      (specDetailLines 0 quiz_data user_choices).getD i "" =
        "Q" ++ toString (i + 1) ++ ": " ++ "❌ Incorrect" ++ " | Your answer: " ++ "No answer" ++
          " | Correct: " ++
          ((quiz_data.get ⟨i, hi⟩).options.getD (quiz_data.get ⟨i, hi⟩).answer_index.toNat "") ∧
      specIsCorrect (quiz_data.get ⟨i, hi⟩) none = false := by
  constructor
  · unfold evaluate_answers
    rw [evalLoop_ok quiz_data 0 user_choices hv]
    dsimp only
    by_cases h0 : quiz_data.length = 0
    · rw [if_pos h0]
      exact ⟨_, rfl⟩
    · rw [if_neg h0]
      exact ⟨_, rfl⟩
  · intro i hi hshort
    have hnone : user_choices.getD i none = none := by
      rw [List.getD_eq_getElem?_getD, List.getElem?_eq_none hshort]
      rfl
    refine ⟨hnone, ?_, ?_⟩
    · have h2 := specDetailLines_getD quiz_data 0 i user_choices hi
      simp only [Nat.zero_add] at h2
      rw [h2, hnone]
      rfl
    · rfl

/-- Witness for C5: the spec's test case — one question with `answer_index`
2 and selection `[2]` yields `correct=1, total=1` and the mastery message. -/
theorem C5_witness :
    evaluate_answers [some 2] [⟨"?", ["A", "B", "C"], 2⟩] =
      Except.ok ("Score: 1 / 1",
        "Great job. You’ve mastered this set.\n\nQ1: ✅ Correct | Your answer: C | Correct: C") := by
  have h := (C5_score_summary_and_tiers [some 2] [⟨"?", ["A", "B", "C"], 2⟩]
    (by decide) (by decide)).2 (by simp)
  exact h.trans rfl

/-- Witness for C6: the spec's test case — selection `[None]` is reported as
`No answer` and counted incorrect. -/
theorem C6_witness :
    evalLoop 0 [⟨"?", ["A", "B", "C"], 2⟩] [none] =
      Except.ok (0, ["Q1: ❌ Incorrect | Your answer: No answer | Correct: C"]) ∧
    specIsCorrect ⟨"?", ["A", "B", "C"], 2⟩ none = false := by
  have h := C6_per_question_verdicts [none] [⟨"?", ["A", "B", "C"], 2⟩] (by decide) 0 (by decide)
  exact ⟨h.1.trans rfl, (h.2.2.2.2 rfl).2⟩

/-- Witness for C10: an empty selections list against a one-question quiz:
no exception, and the question is scored as unanswered. -/
theorem C10_witness :
    (∃ out, evaluate_answers [] [⟨"?", ["A", "B", "C"], 2⟩] = Except.ok out) ∧
    (specDetailLines 0 [⟨"?", ["A", "B", "C"], 2⟩] []).getD 0 "" =
      "Q1: ❌ Incorrect | Your answer: No answer | Correct: C" := by
  have h := C10_no_oob_short_selections [] [⟨"?", ["A", "B", "C"], 2⟩] (by decide)
  exact ⟨h.1, ((h.2 0 (by decide) (by decide)).2.1).trans rfl⟩

/-!  Lemmas about the extractor.  -/

theorem prefix_cons_cases {α : Type} (p : List α) (a : α) (l : List α) (h : p <+: a :: l) :
    p = [] ∨ ∃ p2, p = a :: p2 ∧ p2 <+: l := by
  obtain ⟨t, ht⟩ := h
  cases p with
  | nil => exact Or.inl rfl
  | cons b p2 =>
    injection ht with h1 h2
    exact Or.inr ⟨p2, by rw [h1], ⟨t, h2⟩⟩

/-- One iteration of `extractLoop` is the spec's scan step, returning exactly
when the character is a closing brace outside a string literal that brings
the depth to zero. -/
theorem extractLoop_step_eq (c : Char) (rest : List Char) (depth : Int) (instr esc : Bool)
    (acc : List Char) :
    extractLoop (c :: rest) depth instr esc acc =
      (if instr = false ∧ c = '\x7d' ∧ (scanStep ⟨depth, instr, esc⟩ c).depth = 0 then
        some (acc ++ [c])
      else
        extractLoop rest (scanStep ⟨depth, instr, esc⟩ c).depth
          (scanStep ⟨depth, instr, esc⟩ c).instr (scanStep ⟨depth, instr, esc⟩ c).esc
          (acc ++ [c])) := by
  by_cases h1 : instr <;> by_cases h2 : esc <;> by_cases h3 : c = '\\' <;>
    by_cases h4 : c = '"' <;> by_cases h5 : c = '\x7b' <;> by_cases h6 : c = '\x7d' <;>
    simp_all [extractLoop, scanStep]

theorem scanStep_depth (depth : Int) (instr esc : Bool) (c : Char) :
    (scanStep ⟨depth, instr, esc⟩ c).depth = depth ∨
      (scanStep ⟨depth, instr, esc⟩ c).depth = depth + 1 ∨
      ((scanStep ⟨depth, instr, esc⟩ c).depth = depth - 1 ∧ instr = false ∧ c = '\x7d') := by
  unfold scanStep
  split_ifs <;> simp_all

theorem extractLoop_some_charact (cs : List Char) :
    ∀ (depth : Int) (instr esc : Bool) (acc out : List Char),
    1 ≤ depth →
    extractLoop cs depth instr esc acc = some out →
    ∃ c1 c2, cs = c1 ++ c2 ∧ c1 ≠ [] ∧ out = acc ++ c1 ∧
      (scanRunFrom ⟨depth, instr, esc⟩ c1).depth = 0 ∧
      ∀ p, p <+: c1 → p ≠ c1 → (scanRunFrom ⟨depth, instr, esc⟩ p).depth ≠ 0 := by
  induction cs with
  | nil =>
    intro depth instr esc acc out hd h
    exact absurd h (by simp [extractLoop])
  | cons c rest ih =>
    intro depth instr esc acc out hd h
    rw [extractLoop_step_eq] at h
    by_cases hret : instr = false ∧ c = '\x7d' ∧ (scanStep ⟨depth, instr, esc⟩ c).depth = 0
    · rw [if_pos hret] at h
      have hout : out = acc ++ [c] := (Option.some.inj h).symm
      refine ⟨[c], rest, rfl, by simp, hout, ?_, ?_⟩
      · simpa [scanRunFrom] using hret.2.2
      · intro p hp hpne
        rcases prefix_cons_cases p c [] hp with rfl | ⟨p2, rfl, hp2⟩
        · show depth ≠ 0
          omega
        · rw [List.prefix_nil] at hp2
          exact absurd (by rw [hp2]) hpne
    · rw [if_neg hret] at h
      have hd2 : 1 ≤ (scanStep ⟨depth, instr, esc⟩ c).depth := by
        rcases scanStep_depth depth instr esc c with hs | hs | ⟨hs, hinstr, hc⟩
        · omega
        · omega
        · by_cases hz : (scanStep ⟨depth, instr, esc⟩ c).depth = 0
          · exact absurd ⟨hinstr, hc, hz⟩ hret
          · omega
      obtain ⟨c1, c2, hsplit, hne, hout, hzero, hmin⟩ :=
        ih (scanStep ⟨depth, instr, esc⟩ c).depth (scanStep ⟨depth, instr, esc⟩ c).instr
          (scanStep ⟨depth, instr, esc⟩ c).esc (acc ++ [c]) out hd2 h
      refine ⟨c :: c1, c2, by simp [hsplit], by simp, by simp [hout], ?_, ?_⟩
      · rw [scanRunFrom, List.foldl_cons]
        exact hzero
      · intro p hp hpne
        rcases prefix_cons_cases p c c1 hp with rfl | ⟨p2, rfl, hp2⟩
        · show depth ≠ 0
          omega
        · rw [scanRunFrom, List.foldl_cons]
          exact hmin p2 hp2 (fun he => hpne (by rw [he]))

theorem extractLoop_none_charact (cs : List Char) :
    ∀ (depth : Int) (instr esc : Bool) (acc : List Char),
    1 ≤ depth →
    extractLoop cs depth instr esc acc = none →
    ∀ p, p <+: cs → (scanRunFrom ⟨depth, instr, esc⟩ p).depth ≠ 0 := by
  induction cs with
  | nil =>
    intro depth instr esc acc hd _ p hp
    rw [List.prefix_nil] at hp
    subst hp
    show depth ≠ 0
    omega
  | cons c rest ih =>
    intro depth instr esc acc hd h p hp
    rw [extractLoop_step_eq] at h
    by_cases hret : instr = false ∧ c = '\x7d' ∧ (scanStep ⟨depth, instr, esc⟩ c).depth = 0
    · rw [if_pos hret] at h
      exact absurd h (by simp)
    · rw [if_neg hret] at h
      have hd2 : 1 ≤ (scanStep ⟨depth, instr, esc⟩ c).depth := by
        rcases scanStep_depth depth instr esc c with hs | hs | ⟨hs, hinstr, hc⟩
        · omega
        · omega
        · by_cases hz : (scanStep ⟨depth, instr, esc⟩ c).depth = 0
          · exact absurd ⟨hinstr, hc, hz⟩ hret
          · omega
      rcases prefix_cons_cases p c rest hp with rfl | ⟨p2, rfl, hp2⟩
      · show depth ≠ 0
        omega
      · rw [scanRunFrom, List.foldl_cons]
        exact ih (scanStep ⟨depth, instr, esc⟩ c).depth (scanStep ⟨depth, instr, esc⟩ c).instr
          (scanStep ⟨depth, instr, esc⟩ c).esc (acc ++ [c]) hd2 h p2 hp2

theorem findBrace_some (l suf : List Char) (h : findBrace l = some suf) :
    ∃ pre, l = pre ++ suf ∧ (∀ c ∈ pre, c ≠ '\x7b') ∧ ∃ r, suf = '\x7b' :: r := by
  induction l with
  | nil => exact absurd h (by simp [findBrace])
  | cons c rest ih =>
    by_cases hc : c = '\x7b'
    · rw [findBrace, if_pos hc] at h
      refine ⟨[], by simp [(Option.some.inj h).symm], by simp, rest, ?_⟩
      rw [← Option.some.inj h, hc]
    · rw [findBrace, if_neg hc] at h
      obtain ⟨pre, hsplit, hpre, hbr⟩ := ih h
      refine ⟨c :: pre, by simp [hsplit], ?_, hbr⟩
      intro x hx
      rcases List.mem_cons.mp hx with rfl | hx2
      · exact hc
      · exact hpre x hx2

theorem findBrace_none (l : List Char) (h : findBrace l = none) : ∀ c ∈ l, c ≠ '\x7b' := by
  induction l with
  | nil => intro c hc; cases hc
  | cons c rest ih =>
    by_cases hc : c = '\x7b'
    · rw [findBrace, if_pos hc] at h
      exact absurd h (by simp)
    · rw [findBrace, if_neg hc] at h
      intro x hx
      rcases List.mem_cons.mp hx with rfl | hx2
      · exact hc
      · exact ih h x hx2

/-- C2: `_extract_first_json_object` behaves as the string-aware balanced
brace matcher.  When it returns a substring, that substring starts at the
first `\x7b` of the text (nothing before it is a `\x7b`), is non-empty, begins
with `\x7b`, replays the string-aware depth scan to exactly zero at its final
character, and no shorter non-empty prefix reaches depth zero — i.e. it is
the exact substring from the first `\x7b` through the `\x7d` that returns the
depth counter to zero, with braces inside string literals ignored by the
scan.  When it returns none, either the text has no `\x7b`, or the scan of
the suffix from the first `\x7b` ends before the depth returns to zero. -/
theorem C2_extractor_balanced_matcher (text : String) :
    (∀ s, _extract_first_json_object text = some s →
      ∃ pre post, text.data = pre ++ s.data ++ post ∧ (∀ ch ∈ pre, ch ≠ '\x7b') ∧
        s.data ≠ [] ∧ s.data.head? = some '\x7b' ∧
        (scanRunFrom ⟨0, false, false⟩ s.data).depth = 0 ∧
        ∀ p, p <+: s.data → p ≠ [] → p ≠ s.data →
          (scanRunFrom ⟨0, false, false⟩ p).depth ≠ 0) ∧
    (_extract_first_json_object text = none →
      (∀ ch ∈ text.data, ch ≠ '\x7b') ∨
      ∃ suf, findBrace text.data = some suf ∧
        ∀ p, p <+: suf → p ≠ [] → (scanRunFrom ⟨0, false, false⟩ p).depth ≠ 0) := by
  constructor
  · intro s hs
    unfold _extract_first_json_object at hs
    cases hf : findBrace text.data with
    | none => rw [hf] at hs; exact absurd hs (by simp)
    | some suf =>
      rw [hf] at hs
      obtain ⟨pre, hsplit, hpre, r, rfl⟩ := findBrace_some text.data suf hf
      dsimp only at hs
      cases he : extractLoop ('\x7b' :: r) 0 false false [] with
      | none => rw [he] at hs; exact absurd hs (by simp)
      | some cs =>
        rw [he] at hs
        have hscs : s = String.mk cs := by
          simpa using hs.symm
        subst hscs
        have he2 : extractLoop r 1 false false ['\x7b'] = some cs := he
        obtain ⟨c1, c2, hsplit2, _, hout, hzero, hmin⟩ :=
          extractLoop_some_charact r 1 false false ['\x7b'] cs (by omega) he2
        have hcs2 : cs = '\x7b' :: c1 := by simpa using hout
        have hcs : (String.mk cs).data = '\x7b' :: c1 := hcs2
        refine ⟨pre, c2, ?_, hpre, by simp [hcs2], by simp [hcs2], ?_, ?_⟩
        · rw [hsplit, hsplit2, hcs]
          simp
        · rw [hcs, scanRunFrom, List.foldl_cons]
          exact hzero
        · intro p hp hpne hpwhole
          rw [hcs] at hp hpwhole
          rcases prefix_cons_cases p '\x7b' c1 hp with rfl | ⟨p2, rfl, hp2⟩
          · exact absurd rfl hpne
          · rw [scanRunFrom, List.foldl_cons]
            exact hmin p2 hp2 (fun hp2e => hpwhole (by rw [hp2e]))
  · intro hn
    unfold _extract_first_json_object at hn
    cases hf : findBrace text.data with
    | none => exact Or.inl (findBrace_none text.data hf)
    | some suf =>
      rw [hf] at hn
      obtain ⟨pre, hsplit, hpre, r, rfl⟩ := findBrace_some text.data suf hf
      dsimp only at hn
      cases he : extractLoop ('\x7b' :: r) 0 false false [] with
      | some cs => rw [he] at hn; exact absurd hn (by simp)
      | none =>
        have he2 : extractLoop r 1 false false ['\x7b'] = none := he
        refine Or.inr ⟨'\x7b' :: r, rfl, ?_⟩
        intro p hp hpne
        rcases prefix_cons_cases p '\x7b' r hp with rfl | ⟨p2, rfl, hp2⟩
        · exact absurd rfl hpne
        · rw [scanRunFrom, List.foldl_cons]
          exact extractLoop_none_charact r 1 false false ['\x7b'] (by omega) he2 p2 hp2

/-- Witness for C2: the spec's example of braces inside quoted string values,
embedded in prose — the whole object substring is returned, and the theorem's
characterization holds of it. -/
theorem C2_witness :
    _extract_first_json_object "x \x7b\"a\": \"b\x7bc\x7dd\"\x7d y" =
      some "\x7b\"a\": \"b\x7bc\x7dd\"\x7d" ∧
    ∃ pre post,
      ("x \x7b\"a\": \"b\x7bc\x7dd\"\x7d y" : String).data =
        pre ++ ("\x7b\"a\": \"b\x7bc\x7dd\"\x7d" : String).data ++ post ∧
      (∀ ch ∈ pre, ch ≠ '\x7b') ∧
      ("\x7b\"a\": \"b\x7bc\x7dd\"\x7d" : String).data ≠ [] ∧
      ("\x7b\"a\": \"b\x7bc\x7dd\"\x7d" : String).data.head? = some '\x7b' ∧
      (scanRunFrom ⟨0, false, false⟩ ("\x7b\"a\": \"b\x7bc\x7dd\"\x7d" : String).data).depth = 0 ∧
      ∀ p, p <+: ("\x7b\"a\": \"b\x7bc\x7dd\"\x7d" : String).data → p ≠ [] →
        p ≠ ("\x7b\"a\": \"b\x7bc\x7dd\"\x7d" : String).data →
        (scanRunFrom ⟨0, false, false⟩ p).depth ≠ 0 :=
  ⟨rfl, (C2_extractor_balanced_matcher "x \x7b\"a\": \"b\x7bc\x7dd\"\x7d y").1
    "\x7b\"a\": \"b\x7bc\x7dd\"\x7d" rfl⟩

/-- Witness for C3: the attempt-order theorem applied at a concrete prose
input (both attempts fail, so the empty structure is returned). -/
theorem C3_witness :
    (∃ v, json_loads "no json" = some v ∧ pyContainsQuestions v = some true ∧
      parse_quiz_json "no json" = v) ∨
    ((json_loads "no json" = none ∨
        ∃ v0, json_loads "no json" = some v0 ∧ pyContainsQuestions v0 ≠ some true) ∧
      ∃ b v, _extract_first_json_object "no json" = some b ∧ json_loads b = some v ∧
        pyContainsQuestions v = some true ∧ parse_quiz_json "no json" = v) ∨
    parse_quiz_json "no json" = emptyQuiz :=
  C3_parse_attempt_order "no json"
